import Mathlib

/-!
# Verification of the energy-consumption anomaly detector

Shallow embedding of `anomalies.py` (class `DetecteurAnomalies`) from the
`Mini_Projet_Programmation_Python_Energy` repository, together with proofs of
the specification's claims about it.

Modelling conventions:
* Python floats are modelled as exact rationals (`ℚ`); `round(x, 2)` is
  modelled as exact round-half-to-even to a multiple of `1/100` (`round2`),
  and `round(statistics.stdev(vals), 2)` as the round-half-to-even of the
  exact real square root of the sample variance (`round2sqrt`).
* Reading dictionaries are modelled as a record `Lecture` with the three
  fields the detector reads (`capteur_id`, `valeur`, `type_equipement`);
  the detector's output records are `LectureAnalysee`, the input record plus
  the two added fields `anomalie` and `type_anomalie`.
* Python dicts built by insertion are modelled as association lists in
  insertion order.
-/

attribute [local semireducible] Rat.add Rat.mul Rat.sub Rat.inv Rat.ofScientific

set_option maxRecDepth 40000

namespace Energy

/-! ## Exact model of Python rounding -/

/-- Round-half-to-even of a rational to an integer: model of Python's
built-in `round(x)` under exact rational arithmetic. -/
def rhe (x : ℚ) : ℤ :=
  if x - ⌊x⌋ < 1/2 then ⌊x⌋
  else if 1/2 < x - ⌊x⌋ then ⌊x⌋ + 1
  else if ⌊x⌋ % 2 = 0 then ⌊x⌋ else ⌊x⌋ + 1

/-- Model of Python's `round(x, 2)` under exact rational arithmetic. -/
def round2 (x : ℚ) : ℚ := (rhe (100 * x) : ℚ) / 100

/-- Fuel-based integer square-root worker: counts `acc` upward while
`(acc+1)^2` still fits below `n`. -/
def isqrtGo (n : ℕ) : ℕ → ℕ → ℕ
  | 0, acc => acc
  | fuel+1, acc => if (acc+1) * (acc+1) ≤ n then isqrtGo n fuel (acc+1) else acc

/-- Integer square root (the floor of the real square root). -/
def isqrt (n : ℕ) : ℕ := isqrtGo n n 0

/-- Round-half-to-even of the real square root of a nonnegative rational `y`,
computed with integer arithmetic only. -/
def sqrtRHE (y : ℚ) : ℤ :=
  let f : ℤ := (isqrt ⌊y⌋.toNat : ℕ)
  if 4 * y < ((2*f+1 : ℤ) : ℚ) * ((2*f+1 : ℤ) : ℚ) then f
  else if ((2*f+1 : ℤ) : ℚ) * ((2*f+1 : ℤ) : ℚ) < 4 * y then f + 1
  else if f % 2 = 0 then f else f + 1

/-- Model of Python's `round(math-level sqrt x, 2)`: round-half-to-even of
`Real.sqrt x` to a multiple of `1/100`, as used for `statistics.stdev`. -/
def round2sqrt (x : ℚ) : ℚ := (sqrtRHE (10000 * x) : ℚ) / 100

/-! ## Data model -/

/-- A sensor reading: the fields of the Python reading dict that
`DetecteurAnomalies` reads (`capteur_id`, `valeur`, `type_equipement`). -/
structure Lecture where
  capteur_id : String
  type_equipement : String
  valeur : ℚ
deriving DecidableEq

/-- Per-group statistics, the dict returned by `_calculer_stats`
(keys `moyenne`, `ecart_type`, `min`, `max`). -/
structure Stats where
  moyenne : ℚ
  ecart_type : ℚ
  min : ℚ
  max : ℚ
deriving DecidableEq

/-- A reading augmented by `detecter_anomalies`: the original reading's
fields plus exactly the two added fields `anomalie` and `type_anomalie`. -/
structure LectureAnalysee where
  lecture : Lecture
  anomalie : Bool
  type_anomalie : String
deriving DecidableEq

/-- The report dict returned by `rapport_anomalies`; the three mappings are
insertion-ordered association lists. -/
structure Rapport where
  nombre_total : ℕ
  nombre_anomalies : ℕ
  pourcentage_anomalies : ℚ
  anomalies_par_type : List (String × ℕ)
  anomalies_par_capteur : List (String × ℕ)
  types_anomalies : List (String × ℕ)
deriving DecidableEq

/-! ## The detector (from `anomalies.py`) -/

/-- Model of `DetecteurAnomalies.SEUILS_FIXES`: the fixed thresholds per equipment
type in kW, as a lookup (Python `dict.get`). -/
def SEUILS_FIXES (type_eq : String) : Option ℚ :=
  if type_eq = "pompe" then some (32/10)
  else if type_eq = "compresseur" then some (80/10)
  else if type_eq = "eclairage" then some (17/10)
  else if type_eq = "ventilation" then some (22/10)
  else none

/-- Model of `DetecteurAnomalies.MULTIPLICATEUR_ECART_TYPE`. -/
def MULTIPLICATEUR_ECART_TYPE : ℚ := 2

/-- First element of a list of rationals, or `0` when empty
(Python `valeurs[0] if valeurs else 0`). -/
def headD0 : List ℚ → ℚ
  | [] => 0
  | x :: _ => x

/-- Python `min(valeurs)` (with the `if valeurs else 0` guard of the source). -/
def minD : List ℚ → ℚ
  | [] => 0
  | x :: xs => xs.foldl min x

/-- Python `max(valeurs)` (with the `if valeurs else 0` guard of the source). -/
def maxD : List ℚ → ℚ
  | [] => 0
  | x :: xs => xs.foldl max x

/-- Model of `DetecteurAnomalies._calculer_stats`: statistics for a group of readings.
`statistics.mean` is the exact arithmetic mean and `statistics.stdev` the
sample standard deviation (squared deviations from the exact mean, divided
by `n - 1`, then square root); both are rounded to 2 decimals. -/
def calculer_stats (lectures : List Lecture) : Stats :=
  let valeurs := lectures.map (·.valeur)
  if valeurs.length < 2 then
    { moyenne := headD0 valeurs
      ecart_type := 0
      min := minD valeurs
      max := maxD valeurs }
  else
    let n : ℚ := valeurs.length
    let moyenne := valeurs.sum / n
    let variance := (valeurs.map (fun v => (v - moyenne) * (v - moyenne))).sum / (n - 1)
    { moyenne := round2 moyenne
      ecart_type := round2sqrt variance
      min := minD valeurs
      max := maxD valeurs }

/-- The group of a given equipment type produced by
`DetecteurAnomalies._grouper_par_type`: the sub-list of readings carrying
that type, in input order. -/
def groupe_de_type (lectures : List Lecture) (type_eq : String) : List Lecture :=
  lectures.filter (fun l => l.type_equipement = type_eq)

/-- The per-type statistics dict (`stats_par_type` in `detecter_anomalies`)
as a lookup: `none` models a type absent from the dict (Python
`stats_par_type.get(type_eq, {})` returning the empty dict). -/
def stats_par_type (lectures : List Lecture) (type_eq : String) : Option Stats :=
  let groupe := groupe_de_type lectures type_eq
  if groupe.isEmpty then none else some (calculer_stats groupe)

/-- Criterion 1 of `_analyser_lecture` (`if seuil and valeur > seuil`): the
threshold exists, is truthy (nonzero), and the value strictly exceeds it. -/
def seuil_declenche (valeur : ℚ) (type_eq : String) : Bool :=
  match SEUILS_FIXES type_eq with
  | some seuil => decide (seuil ≠ 0) && decide (seuil < valeur)
  | none => false

/-- Criterion 2 of `_analyser_lecture`: the labels appended by the
statistical-band test (empty when the criterion does not fire; the source
appends exactly one label when it fires). -/
def labels_stat (valeur : ℚ) (stats : Option Stats) : List String :=
  match stats with
  | none => []
  | some st =>
    if 0 < st.ecart_type then
      if st.moyenne + MULTIPLICATEUR_ECART_TYPE * st.ecart_type < valeur then
        ["écart_type_élevé"]
      else if valeur < st.moyenne - MULTIPLICATEUR_ECART_TYPE * st.ecart_type then
        ["écart_type_faible"]
      else []
    else []

/-- Model of `DetecteurAnomalies._analyser_lecture`: classify one value against the
fixed threshold of its type and its group statistics; returns
`(est_anomalie, type_anomalie)` where the label is the `" + "`-join of the
appended labels, or `"aucune"` when none fired. -/
def analyser_lecture (valeur : ℚ) (type_eq : String) (stats : Option Stats) :
    Bool × String :=
  let types_anomalie :=
    (if seuil_declenche valeur type_eq then ["dépassement_seuil"] else [])
      ++ labels_stat valeur stats
  (seuil_declenche valeur type_eq || !(labels_stat valeur stats).isEmpty,
   if types_anomalie.isEmpty then "aucune"
   else String.intercalate " + " types_anomalie)

/-- The augmented record built for one reading inside the loop of
`detecter_anomalies`. -/
def analyser_dans (lectures : List Lecture) (lecture : Lecture) : LectureAnalysee :=
  let res := analyser_lecture lecture.valeur lecture.type_equipement
    (stats_par_type lectures lecture.type_equipement)
  { lecture := lecture, anomalie := res.1, type_anomalie := res.2 }

/-- Model of `DetecteurAnomalies.detecter_anomalies`: group by type, compute per-type
statistics, and classify every reading in input order. -/
def detecter_anomalies (lectures : List Lecture) : List LectureAnalysee :=
  if lectures.isEmpty then []
  else lectures.map (analyser_dans lectures)

/-- Model of `DetecteurAnomalies.obtenir_anomalies`: keep only flagged readings. -/
def obtenir_anomalies (lectures : List LectureAnalysee) : List LectureAnalysee :=
  lectures.filter (·.anomalie)

/-- Append `x` under key `k` in an insertion-ordered dict of lists
(Python `dict` + `list.append` as used by `rapport_anomalies`). -/
def addToGroups {α : Type} (groups : List (String × List α)) (k : String) (x : α) :
    List (String × List α) :=
  match groups with
  | [] => [(k, [x])]
  | (k2, v) :: rest =>
    if k2 = k then (k2, v ++ [x]) :: rest
    else (k2, v) :: addToGroups rest k x

/-- Group a list into an insertion-ordered dict of lists by a string key. -/
def groupByKey {α : Type} (key : α → String) (xs : List α) : List (String × List α) :=
  xs.foldl (fun g x => addToGroups g (key x) x) []

/-- Increment the counter of key `k` in an insertion-ordered counting dict
(Python `d[k] = d.get(k, 0) + 1`). -/
def addCount (counts : List (String × ℕ)) (k : String) : List (String × ℕ) :=
  match counts with
  | [] => [(k, 1)]
  | (k2, n) :: rest =>
    if k2 = k then (k2, n + 1) :: rest
    else (k2, n) :: addCount rest k

/-- Count occurrences of a string key over a list, in insertion order. -/
def countByKey {α : Type} (key : α → String) (xs : List α) : List (String × ℕ) :=
  xs.foldl (fun c x => addCount c (key x)) []

/-- Model of `DetecteurAnomalies.rapport_anomalies`: the summary report over a batch
of classified readings. -/
def rapport_anomalies (lectures : List LectureAnalysee) : Rapport :=
  let anomalies := obtenir_anomalies lectures
  if anomalies.isEmpty then
    { nombre_total := lectures.length
      nombre_anomalies := 0
      pourcentage_anomalies := 0
      anomalies_par_type := []
      anomalies_par_capteur := []
      types_anomalies := [] }
  else
    let pourcentage : ℚ :=
      if lectures.isEmpty then 0
      else (anomalies.length : ℚ) / (lectures.length : ℚ) * 100
    { nombre_total := lectures.length
      nombre_anomalies := anomalies.length
      pourcentage_anomalies := round2 pourcentage
      anomalies_par_type :=
        (groupByKey (fun a => a.lecture.type_equipement) anomalies).map
          (fun p => (p.1, p.2.length))
      anomalies_par_capteur :=
        (groupByKey (fun a => a.lecture.capteur_id) anomalies).map
          (fun p => (p.1, p.2.length))
      types_anomalies := countByKey (fun a => a.type_anomalie) anomalies }

/-! ## Properties of the rounding model -/

theorem rhe_dist (x : ℚ) : |(rhe x : ℚ) - x| ≤ 1/2 := by
  have h0 : (⌊x⌋ : ℚ) ≤ x := Int.floor_le x
  have h1 : x < (⌊x⌋ : ℚ) + 1 := Int.lt_floor_add_one x
  unfold rhe
  split_ifs with hc1 hc2 hc3 <;> rw [abs_le] <;> constructor <;> push_cast <;> linarith

theorem rhe_nonneg (x : ℚ) (h : 0 ≤ x) : 0 ≤ rhe x := by
  have h2 : 0 ≤ ⌊x⌋ := Int.floor_nonneg.mpr h
  unfold rhe
  split_ifs <;> omega

theorem rhe_le_ofInt (x : ℚ) (n : ℤ) (h : x ≤ (n : ℚ)) : rhe x ≤ n := by
  have hfl : ⌊x⌋ ≤ n := by
    have h2 := Int.floor_le_floor (α := ℚ) h
    simpa using h2
  have hlow : (⌊x⌋ : ℚ) ≤ x := Int.floor_le x
  unfold rhe
  split_ifs with h1 h2 h3
  · exact hfl
  · rcases eq_or_lt_of_le hfl with he | hlt
    · exfalso
      have hq : ((⌊x⌋ : ℤ) : ℚ) = ((n : ℤ) : ℚ) := by exact_mod_cast he
      linarith
    · omega
  · exact hfl
  · rcases eq_or_lt_of_le hfl with he | hlt
    · exfalso
      have hq : ((⌊x⌋ : ℤ) : ℚ) = ((n : ℤ) : ℚ) := by exact_mod_cast he
      linarith
    · omega

theorem round2_dist (x : ℚ) : |round2 x - x| ≤ 1/200 := by
  have h := rhe_dist (100 * x)
  rw [abs_le] at h ⊢
  unfold round2
  constructor <;> [linarith [h.1, h.2]; linarith [h.1, h.2]]

theorem round2_nonneg (x : ℚ) (h : 0 ≤ x) : 0 ≤ round2 x := by
  have := rhe_nonneg (100 * x) (by linarith)
  unfold round2
  positivity

theorem round2_le_100 (x : ℚ) (h : x ≤ 100) : round2 x ≤ 100 := by
  have h1 : rhe (100 * x) ≤ (10000 : ℤ) := by
    apply rhe_le_ofInt
    push_cast
    linarith
  unfold round2
  rw [div_le_iff₀ (by norm_num : (0:ℚ) < 100)]
  calc ((rhe (100 * x) : ℤ) : ℚ) ≤ ((10000 : ℤ) : ℚ) := by exact_mod_cast h1
  _ = 100 * 100 := by norm_num

/-! ## Properties of the integer square root -/

theorem isqrtGo_sq_le (n : ℕ) :
    ∀ (fuel acc : ℕ), acc * acc ≤ n → isqrtGo n fuel acc * isqrtGo n fuel acc ≤ n := by
  intro fuel
  induction fuel with
  | zero => intro acc h; simpa [isqrtGo] using h
  | succ f ih =>
    intro acc h
    unfold isqrtGo
    split_ifs with hs
    · exact ih (acc + 1) hs
    · simpa using h

theorem isqrtGo_lt (n : ℕ) :
    ∀ (fuel acc : ℕ), n ≤ (acc + fuel) * (acc + fuel) →
      n < (isqrtGo n fuel acc + 1) * (isqrtGo n fuel acc + 1) := by
  intro fuel
  induction fuel with
  | zero =>
    intro acc h
    have h2 : acc * acc < (acc + 1) * (acc + 1) := by nlinarith
    simp only [isqrtGo]
    simp only [Nat.add_zero] at h
    omega
  | succ f ih =>
    intro acc h
    unfold isqrtGo
    split_ifs with hs
    · refine ih (acc + 1) ?_
      have he : acc + 1 + f = acc + (f + 1) := by omega
      rw [he]
      exact h
    · simpa using lt_of_not_le hs

theorem isqrt_sq_le (n : ℕ) : isqrt n * isqrt n ≤ n :=
  isqrtGo_sq_le n n 0 (by simp)

theorem isqrt_lt_succ_sq (n : ℕ) : n < (isqrt n + 1) * (isqrt n + 1) := by
  apply isqrtGo_lt n n 0
  simp only [Nat.zero_add]
  rcases Nat.eq_zero_or_pos n with h | h
  · simp [h]
  · exact Nat.le_mul_of_pos_left n h

theorem sqrtRHE_dist (y : ℚ) (hy : 0 ≤ y) :
    |((sqrtRHE y : ℤ) : ℝ) - Real.sqrt (y : ℝ)| ≤ 1/2 := by
  have hm : ((⌊y⌋.toNat : ℤ) : ℚ) ≤ y := by
    rw [Int.toNat_of_nonneg (Int.floor_nonneg.mpr hy)]
    exact Int.floor_le y
  have hm2 : y < ((⌊y⌋.toNat : ℤ) : ℚ) + 1 := by
    rw [Int.toNat_of_nonneg (Int.floor_nonneg.mpr hy)]
    exact Int.lt_floor_add_one y
  have hq1 : ((isqrt ⌊y⌋.toNat : ℕ) : ℚ) * ((isqrt ⌊y⌋.toNat : ℕ) : ℚ) ≤ y := by
    have h1 := isqrt_sq_le ⌊y⌋.toNat
    have h2 : ((isqrt ⌊y⌋.toNat * isqrt ⌊y⌋.toNat : ℕ) : ℚ) ≤ ((⌊y⌋.toNat : ℕ) : ℚ) :=
      by exact_mod_cast h1
    push_cast at h2 ⊢
    calc ((isqrt ⌊y⌋.toNat : ℕ) : ℚ) * ((isqrt ⌊y⌋.toNat : ℕ) : ℚ) ≤ ((⌊y⌋.toNat : ℕ) : ℚ) := h2
    _ ≤ y := by exact_mod_cast hm
  have hq2 : y < (((isqrt ⌊y⌋.toNat : ℕ) : ℚ) + 1) * (((isqrt ⌊y⌋.toNat : ℕ) : ℚ) + 1) := by
    have h1 := isqrt_lt_succ_sq ⌊y⌋.toNat
    have h2 : ((⌊y⌋.toNat : ℕ) : ℚ) + 1 ≤
        (((isqrt ⌊y⌋.toNat + 1) * (isqrt ⌊y⌋.toNat + 1) : ℕ) : ℚ) := by
      exact_mod_cast Nat.succ_le_of_lt h1
    push_cast at h2
    calc y < ((⌊y⌋.toNat : ℤ) : ℚ) + 1 := hm2
    _ ≤ (((isqrt ⌊y⌋.toNat : ℕ) : ℚ) + 1) * (((isqrt ⌊y⌋.toNat : ℕ) : ℚ) + 1) := by
        push_cast
        linarith [h2]
  have hf0 : (0 : ℝ) ≤ ((isqrt ⌊y⌋.toNat : ℕ) : ℝ) := by positivity
  have hy0 : (0 : ℝ) ≤ (y : ℝ) := by exact_mod_cast hy
  have hr1 : ((isqrt ⌊y⌋.toNat : ℕ) : ℝ) ≤ Real.sqrt (y : ℝ) := by
    rw [Real.le_sqrt hf0 hy0]
    have := (Rat.cast_le (K := ℝ)).mpr hq1
    push_cast at this ⊢
    nlinarith [this]
  have hr2 : Real.sqrt (y : ℝ) < ((isqrt ⌊y⌋.toNat : ℕ) : ℝ) + 1 := by
    rw [Real.sqrt_lt' (by positivity)]
    have := (Rat.cast_lt (K := ℝ)).mpr hq2
    push_cast at this ⊢
    nlinarith [this]
  simp only [sqrtRHE]
  split_ifs with h1 h2 h3
  · have hup : Real.sqrt (y : ℝ) < ((isqrt ⌊y⌋.toNat : ℕ) : ℝ) + 1/2 := by
      rw [Real.sqrt_lt' (by positivity)]
      have := (Rat.cast_lt (K := ℝ)).mpr h1
      push_cast at this ⊢
      nlinarith [this]
    rw [abs_le]
    push_cast
    constructor <;> linarith
  · have hlo : ((isqrt ⌊y⌋.toNat : ℕ) : ℝ) + 1/2 < Real.sqrt (y : ℝ) := by
      apply Real.lt_sqrt_of_sq_lt
      have := (Rat.cast_lt (K := ℝ)).mpr h2
      push_cast at this ⊢
      nlinarith [this]
    rw [abs_le]
    push_cast
    constructor <;> linarith
  · have heq : Real.sqrt (y : ℝ) = ((isqrt ⌊y⌋.toNat : ℕ) : ℝ) + 1/2 := by
      have h4 : (y : ℝ) = (((isqrt ⌊y⌋.toNat : ℕ) : ℝ) + 1/2) ^ 2 := by
        have hle := le_antisymm (le_of_not_lt h2) (le_of_not_lt h1)
        have := congrArg (fun q : ℚ => (q : ℝ)) hle
        push_cast at this ⊢
        nlinarith [this]
      rw [h4, Real.sqrt_sq (by positivity)]
    rw [heq, abs_le]
    push_cast
    constructor <;> linarith
  · have heq : Real.sqrt (y : ℝ) = ((isqrt ⌊y⌋.toNat : ℕ) : ℝ) + 1/2 := by
      have h4 : (y : ℝ) = (((isqrt ⌊y⌋.toNat : ℕ) : ℝ) + 1/2) ^ 2 := by
        have hle := le_antisymm (le_of_not_lt h2) (le_of_not_lt h1)
        have := congrArg (fun q : ℚ => (q : ℝ)) hle
        push_cast at this ⊢
        nlinarith [this]
      rw [h4, Real.sqrt_sq (by positivity)]
    rw [heq, abs_le]
    push_cast
    constructor <;> linarith

theorem round2sqrt_dist (x : ℚ) (hx : 0 ≤ x) :
    |((round2sqrt x : ℚ) : ℝ) - Real.sqrt ((x : ℚ) : ℝ)| ≤ 1/200 := by
  have h := sqrtRHE_dist (10000 * x) (by positivity)
  have hs : Real.sqrt (((10000 * x : ℚ) : ℝ)) = 100 * Real.sqrt ((x : ℚ) : ℝ) := by
    push_cast
    rw [show ((10000 : ℝ) * (x : ℝ)) = (100 : ℝ) ^ 2 * (x : ℝ) by ring]
    rw [Real.sqrt_mul (by positivity), Real.sqrt_sq (by norm_num : (0:ℝ) ≤ 100)]
  rw [hs, abs_le] at h
  unfold round2sqrt
  rw [abs_le]
  push_cast
  constructor <;> linarith [h.1, h.2]

/-! ## Minimum and maximum of a value list -/

theorem foldl_min_mem (xs : List ℚ) :
    ∀ a : ℚ, xs.foldl min a = a ∨ xs.foldl min a ∈ xs := by
  induction xs with
  | nil => intro a; left; rfl
  | cons x xs ih =>
    intro a
    simp only [List.foldl_cons]
    rcases ih (min a x) with h | h
    · rcases min_choice a x with hm | hm
      · left; rw [h, hm]
      · right; rw [h, hm]; exact List.mem_cons_self x xs
    · right; exact List.mem_cons_of_mem x h

theorem foldl_min_le (xs : List ℚ) :
    ∀ a : ℚ, xs.foldl min a ≤ a ∧ ∀ x ∈ xs, xs.foldl min a ≤ x := by
  induction xs with
  | nil => intro a; exact ⟨le_refl a, by simp⟩
  | cons x xs ih =>
    intro a
    simp only [List.foldl_cons]
    obtain ⟨h1, h2⟩ := ih (min a x)
    refine ⟨le_trans h1 (min_le_left a x), ?_⟩
    intro z hz
    rcases List.mem_cons.mp hz with rfl | hz
    · exact le_trans h1 (min_le_right a z)
    · exact h2 z hz

theorem foldl_max_mem (xs : List ℚ) :
    ∀ a : ℚ, xs.foldl max a = a ∨ xs.foldl max a ∈ xs := by
  induction xs with
  | nil => intro a; left; rfl
  | cons x xs ih =>
    intro a
    simp only [List.foldl_cons]
    rcases ih (max a x) with h | h
    · rcases max_choice a x with hm | hm
      · left; rw [h, hm]
      · right; rw [h, hm]; exact List.mem_cons_self x xs
    · right; exact List.mem_cons_of_mem x h

theorem foldl_max_le (xs : List ℚ) :
    ∀ a : ℚ, a ≤ xs.foldl max a ∧ ∀ x ∈ xs, x ≤ xs.foldl max a := by
  induction xs with
  | nil => intro a; exact ⟨le_refl a, by simp⟩
  | cons x xs ih =>
    intro a
    simp only [List.foldl_cons]
    obtain ⟨h1, h2⟩ := ih (max a x)
    refine ⟨le_trans (le_max_left a x) h1, ?_⟩
    intro z hz
    rcases List.mem_cons.mp hz with rfl | hz
    · exact le_trans (le_max_right a z) h1
    · exact h2 z hz

theorem minD_mem (xs : List ℚ) (h : xs ≠ []) : minD xs ∈ xs := by
  cases xs with
  | nil => exact absurd rfl h
  | cons x xs =>
    show xs.foldl min x ∈ x :: xs
    rcases foldl_min_mem xs x with h1 | h1
    · rw [h1]; exact List.mem_cons_self x xs
    · exact List.mem_cons_of_mem x h1

theorem minD_le (xs : List ℚ) : ∀ x ∈ xs, minD xs ≤ x := by
  cases xs with
  | nil => simp
  | cons x xs =>
    intro z hz
    obtain ⟨h1, h2⟩ := foldl_min_le xs x
    rcases List.mem_cons.mp hz with rfl | hz
    · exact h1
    · exact h2 z hz

theorem maxD_mem (xs : List ℚ) (h : xs ≠ []) : maxD xs ∈ xs := by
  cases xs with
  | nil => exact absurd rfl h
  | cons x xs =>
    show xs.foldl max x ∈ x :: xs
    rcases foldl_max_mem xs x with h1 | h1
    · rw [h1]; exact List.mem_cons_self x xs
    · exact List.mem_cons_of_mem x h1

theorem maxD_le (xs : List ℚ) : ∀ x ∈ xs, x ≤ maxD xs := by
  cases xs with
  | nil => simp
  | cons x xs =>
    intro z hz
    obtain ⟨h1, h2⟩ := foldl_max_le xs x
    rcases List.mem_cons.mp hz with rfl | hz
    · exact h1
    · exact h2 z hz

/-! ## Structure of the classifier -/

theorem seuils_pos (t : String) (s : ℚ) (h : SEUILS_FIXES t = some s) : 0 < s := by
  unfold SEUILS_FIXES at h
  split_ifs at h
  all_goals injection h with h2
  all_goals rw [← h2]
  all_goals norm_num

/-- Specification-side fixed-threshold criterion, following the spec's words:
the equipment type has a configured fixed threshold and the value strictly
exceeds it. -/
def critere_seuil (valeur : ℚ) (type_eq : String) : Bool :=
  match SEUILS_FIXES type_eq with
  | some s => decide (s < valeur)
  | none => false

/-- Specification-side statistical-band criterion, following the spec's
words: the deviation label fired, if statistics are available, the standard
deviation is strictly positive and the value lies strictly outside the band. -/
def label_deviation (valeur : ℚ) (stats : Option Stats) : Option String :=
  match stats with
  | none => none
  | some s =>
    if 0 < s.ecart_type then
      if s.moyenne + 2 * s.ecart_type < valeur then some "écart_type_élevé"
      else if valeur < s.moyenne - 2 * s.ecart_type then some "écart_type_faible"
      else none
    else none

/-- Specification-side composition of the anomaly-kind label: the join of the
fired labels with the fixed separator, threshold label first, then the
deviation label, or the none-label when no criterion fired. -/
def etiquette_attendue : Bool → Option String → String
  | false, none => "aucune"
  | true, none => "dépassement_seuil"
  | false, some d => d
  | true, some d => "dépassement_seuil" ++ " + " ++ d

theorem seuil_declenche_eq_critere (v : ℚ) (t : String) :
    seuil_declenche v t = critere_seuil v t := by
  unfold seuil_declenche critere_seuil
  cases hs : SEUILS_FIXES t with
  | none => rfl
  | some s =>
    have hp := seuils_pos t s hs
    simp [hp.ne']

theorem labels_stat_eq_label_deviation (v : ℚ) (st : Option Stats) :
    labels_stat v st = (label_deviation v st).toList := by
  unfold labels_stat label_deviation MULTIPLICATEUR_ECART_TYPE
  cases st with
  | none => rfl
  | some s =>
    dsimp only
    split_ifs <;> rfl

theorem analyser_lecture_eq (v : ℚ) (t : String) (st : Option Stats) :
    analyser_lecture v t st =
      (critere_seuil v t || (label_deviation v st).isSome,
       etiquette_attendue (critere_seuil v t) (label_deviation v st)) := by
  unfold analyser_lecture
  rw [seuil_declenche_eq_critere, labels_stat_eq_label_deviation]
  cases critere_seuil v t <;> rcases label_deviation v st with _ | d <;>
    simp [etiquette_attendue, Option.toList, String.intercalate, String.intercalate.go]

theorem label_deviation_cases (v : ℚ) (st : Option Stats) :
    label_deviation v st = none ∨ label_deviation v st = some "écart_type_élevé" ∨
      label_deviation v st = some "écart_type_faible" := by
  unfold label_deviation
  cases st with
  | none => left; rfl
  | some s =>
    dsimp only
    split_ifs <;> simp

theorem detecter_eq_map (ls : List Lecture) :
    detecter_anomalies ls = ls.map (analyser_dans ls) := by
  unfold detecter_anomalies
  split_ifs with h
  · rw [List.isEmpty_iff] at h
    rw [h]
    rfl
  · rfl

/-! ## The claims -/

/-- C1, counterexample: given the empty sequence of values, `_calculer_stats`
does not signal any error condition — it is total and returns exactly the
zeroed default statistics (mean 0, stdev 0, min 0, max 0), which the claim
says it must not do; no `EmptyInputError` exists anywhere in the source. -/
theorem calculer_stats_vide_renvoie_zeros :
    (calculer_stats []).moyenne = 0 ∧ (calculer_stats []).ecart_type = 0 ∧
      (calculer_stats []).min = 0 ∧ (calculer_stats []).max = 0 :=
  ⟨rfl, rfl, rfl, rfl⟩

/-- C1, amended: for the empty sequence of values given directly to the
Statistics Calculator, the computation signals no error: it silently returns
the default statistics record with zeroed mean, stdev, min and max. -/
theorem calculer_stats_vide :
    calculer_stats [] = { moyenne := 0, ecart_type := 0, min := 0, max := 0 } := rfl

/-- C2: the Detection Engine returns one output record per input reading, in
the same order, with the original reading embedded unchanged in the
corresponding output record (the output type `LectureAnalysee` carries the
original reading plus exactly the two added fields `anomalie` and
`type_anomalie`), and the empty input yields the empty output without
error. -/
theorem detecter_preserve_lectures :
    ∀ lectures : List Lecture,
      (detecter_anomalies lectures).map (fun r => r.lecture) = lectures ∧
      (detecter_anomalies lectures).length = lectures.length ∧
      detecter_anomalies [] = [] := by
  have hmap : ∀ ls : List Lecture,
      (detecter_anomalies ls).map (fun r => r.lecture) = ls := by
    intro ls
    rw [detecter_eq_map, List.map_map]
    have h : ∀ a ∈ ls, ((fun r => r.lecture) ∘ analyser_dans ls) a = id a :=
      fun a _ => rfl
    rw [List.map_congr_left h, List.map_id]
  intro lectures
  refine ⟨hmap lectures, ?_, rfl⟩
  conv_rhs => rw [← hmap lectures]
  rw [List.length_map]

/-- C7: on the concrete pump batch `[2.0, 2.1, 2.0, 3.5]`, exactly the `3.5`
reading is flagged, with label `"dépassement_seuil"` alone (the statistical
criterion does not fire since the band is `2.4 ± 2·0.73`, so the upper bound
is `3.86 > 3.5`), and the other three readings come back unflagged with
label `"aucune"`. -/
theorem scenario_pompe :
    detecter_anomalies
        [⟨"CAP_001", "pompe", 2⟩, ⟨"CAP_002", "pompe", 21/10⟩,
         ⟨"CAP_003", "pompe", 2⟩, ⟨"CAP_004", "pompe", 35/10⟩] =
      [⟨⟨"CAP_001", "pompe", 2⟩, false, "aucune"⟩,
       ⟨⟨"CAP_002", "pompe", 21/10⟩, false, "aucune"⟩,
       ⟨⟨"CAP_003", "pompe", 2⟩, false, "aucune"⟩,
       ⟨⟨"CAP_004", "pompe", 35/10⟩, true, "dépassement_seuil"⟩] ∧
    calculer_stats
        [⟨"CAP_001", "pompe", 2⟩, ⟨"CAP_002", "pompe", 21/10⟩,
         ⟨"CAP_003", "pompe", 2⟩, ⟨"CAP_004", "pompe", 35/10⟩] =
      { moyenne := 24/10, ecart_type := 73/100, min := 2, max := 35/10 } := by
  constructor <;> decide

/-- C9: the classification of the readings of one equipment type depends only
on that type's group: two batches whose groups for type `t` coincide (same
readings, same relative order) classify those readings identically, whatever
the other readings are. -/
theorem classification_locale_au_groupe :
    ∀ (l1 l2 : List Lecture) (t : String),
      groupe_de_type l1 t = groupe_de_type l2 t →
      (detecter_anomalies l1).filter (fun r => r.lecture.type_equipement = t) =
        (detecter_anomalies l2).filter (fun r => r.lecture.type_equipement = t) := by
  have key : ∀ (ls : List Lecture) (t : String),
      (detecter_anomalies ls).filter (fun r => r.lecture.type_equipement = t) =
        (groupe_de_type ls t).map (analyser_dans ls) := by
    intro ls t
    rw [detecter_eq_map, List.filter_map]
    rfl
  intro l1 l2 t h
  have congrmap : ∀ x ∈ groupe_de_type l1 t, analyser_dans l1 x = analyser_dans l2 x := by
    intro x hx
    have hxt : x.type_equipement = t := by
      have h2 := List.mem_filter.mp hx
      simpa using h2.2
    unfold analyser_dans
    have hst : stats_par_type l1 x.type_equipement = stats_par_type l2 x.type_equipement := by
      unfold stats_par_type
      rw [hxt, h]
    rw [hst]
  calc (detecter_anomalies l1).filter (fun r => r.lecture.type_equipement = t)
      = (groupe_de_type l1 t).map (analyser_dans l1) := key l1 t
  _ = (groupe_de_type l1 t).map (analyser_dans l2) := List.map_congr_left congrmap
  _ = (groupe_de_type l2 t).map (analyser_dans l2) := by rw [h]
  _ = (detecter_anomalies l2).filter (fun r => r.lecture.type_equipement = t) :=
      (key l2 t).symm

/-- C9, witness: adding a reading of another equipment type to a batch leaves
the classification of the pump readings unchanged. -/
theorem classification_locale_witness :
    groupe_de_type [⟨"c1", "pompe", 2⟩] "pompe" =
      groupe_de_type [⟨"c1", "pompe", 2⟩, ⟨"c2", "four", 50⟩] "pompe" ∧
    (detecter_anomalies [⟨"c1", "pompe", 2⟩]).filter
        (fun r => r.lecture.type_equipement = "pompe") =
      (detecter_anomalies [⟨"c1", "pompe", 2⟩, ⟨"c2", "four", 50⟩]).filter
        (fun r => r.lecture.type_equipement = "pompe") :=
  ⟨by decide, classification_locale_au_groupe _ _ "pompe" (by decide)⟩

theorem label_deviation_isSome_iff (v : ℚ) (st : Stats) :
    (label_deviation v (some st)).isSome = true ↔
      0 < st.ecart_type ∧
        (st.moyenne + 2 * st.ecart_type < v ∨ v < st.moyenne - 2 * st.ecart_type) := by
  unfold label_deviation
  dsimp only
  split_ifs with h1 h2 h3 <;> simp_all

/-- C3: the configured fixed thresholds are pump 3.2, compressor 8.0,
lighting 1.7 and ventilation 2.2 kW, and a reading of a type with a
configured fixed threshold whose value strictly exceeds that threshold is
flagged anomalous with a label carrying `"dépassement_seuil"`; a value at or
below the threshold never receives a threshold label (only a pure
statistical label or `"aucune"`). -/
theorem seuil_fixe_caracterise :
    (SEUILS_FIXES "pompe" = some (32/10) ∧ SEUILS_FIXES "compresseur" = some 8 ∧
     SEUILS_FIXES "eclairage" = some (17/10) ∧
     SEUILS_FIXES "ventilation" = some (22/10)) ∧
    ∀ (v s : ℚ) (t : String) (st : Option Stats), SEUILS_FIXES t = some s →
      (s < v →
        (analyser_lecture v t st).1 = true ∧
          ((analyser_lecture v t st).2 = "dépassement_seuil" ∨
           (analyser_lecture v t st).2 = "dépassement_seuil + écart_type_élevé" ∨
           (analyser_lecture v t st).2 = "dépassement_seuil + écart_type_faible")) ∧
      (v ≤ s →
        ((analyser_lecture v t st).2 = "aucune" ∨
         (analyser_lecture v t st).2 = "écart_type_élevé" ∨
         (analyser_lecture v t st).2 = "écart_type_faible")) := by
  refine ⟨by refine ⟨by decide, by decide, by decide, by decide⟩, ?_⟩
  intro v s t st hs
  rw [analyser_lecture_eq]
  have hcrit : critere_seuil v t = decide (s < v) := by
    unfold critere_seuil
    rw [hs]
  constructor
  · intro hlt
    rw [hcrit, decide_eq_true hlt]
    rcases label_deviation_cases v st with hd | hd | hd <;> rw [hd] <;>
      exact ⟨by decide, by decide⟩
  · intro hle
    rw [hcrit, decide_eq_false (not_lt.mpr hle)]
    rcases label_deviation_cases v st with hd | hd | hd <;> rw [hd] <;> decide

/-- C3, witness: a pump reading of 4 kW exceeds the 3.2 kW pump threshold and
is flagged with a label carrying `"dépassement_seuil"`. -/
theorem seuil_fixe_witness :
    SEUILS_FIXES "pompe" = some (32/10) ∧ ((32/10 : ℚ) < 4) ∧
      ((analyser_lecture 4 "pompe" none).1 = true ∧
        ((analyser_lecture 4 "pompe" none).2 = "dépassement_seuil" ∨
         (analyser_lecture 4 "pompe" none).2 = "dépassement_seuil + écart_type_élevé" ∨
         (analyser_lecture 4 "pompe" none).2 = "dépassement_seuil + écart_type_faible")) :=
  ⟨by decide, by norm_num,
   (seuil_fixe_caracterise.2 4 (32/10) "pompe" none (by decide)).1 (by norm_num)⟩

/-- C4: a reading classified against its group's statistics receives a
deviation label if and only if the group stdev is strictly positive and the
value lies strictly outside `[mean - 2·stdev, mean + 2·stdev]` (a value
exactly at a bound is not flagged), and every single-element group has
stdev 0, so its reading is never flagged by the statistical criterion. -/
theorem bande_statistique_caracterisee :
    (∀ (v : ℚ) (t : String) (st : Stats),
      ((analyser_lecture v t (some st)).2 = "écart_type_élevé" ∨
       (analyser_lecture v t (some st)).2 = "écart_type_faible" ∨
       (analyser_lecture v t (some st)).2 = "dépassement_seuil + écart_type_élevé" ∨
       (analyser_lecture v t (some st)).2 = "dépassement_seuil + écart_type_faible") ↔
      (0 < st.ecart_type ∧
        (st.moyenne + 2 * st.ecart_type < v ∨ v < st.moyenne - 2 * st.ecart_type))) ∧
    ∀ (x : Lecture), (calculer_stats [x]).ecart_type = 0 := by
  refine ⟨?_, fun x => rfl⟩
  intro v t st
  rw [analyser_lecture_eq, ← label_deviation_isSome_iff v st]
  rcases label_deviation_cases v (some st) with hd | hd | hd <;> rw [hd] <;>
    cases critere_seuil v t <;> decide

/-- C8: the anomaly flag is true exactly when one of the two criteria fired;
the anomaly-kind label is exactly the join of the fired labels with the
separator `" + "`, threshold label first, then the deviation label, and
`"aucune"` when none fired; consequently the label ranges over precisely the
six composed labels, each of which is attained. -/
theorem composition_etiquette :
    (∀ (v : ℚ) (t : String) (st : Option Stats),
      ((analyser_lecture v t st).1 = true ↔
        (critere_seuil v t = true ∨ (label_deviation v st).isSome = true)) ∧
      (analyser_lecture v t st).2 =
        etiquette_attendue (critere_seuil v t) (label_deviation v st) ∧
      (analyser_lecture v t st).2 ∈
        ["aucune", "dépassement_seuil", "écart_type_élevé", "écart_type_faible",
         "dépassement_seuil + écart_type_élevé",
         "dépassement_seuil + écart_type_faible"]) ∧
    analyser_lecture 1 "pompe" none = (false, "aucune") ∧
    analyser_lecture 4 "pompe" none = (true, "dépassement_seuil") ∧
    analyser_lecture 10 "four" (some ⟨2, 1, 0, 0⟩) = (true, "écart_type_élevé") ∧
    analyser_lecture (-10) "four" (some ⟨2, 1, 0, 0⟩) = (true, "écart_type_faible") ∧
    analyser_lecture 10 "pompe" (some ⟨2, 1, 0, 0⟩) =
      (true, "dépassement_seuil + écart_type_élevé") ∧
    analyser_lecture 4 "pompe" (some ⟨100, 1, 0, 0⟩) =
      (true, "dépassement_seuil + écart_type_faible") := by
  refine ⟨?_, by decide, by decide, by decide, by decide, by decide, by decide⟩
  intro v t st
  rw [analyser_lecture_eq]
  refine ⟨by simp, rfl, ?_⟩
  rcases label_deviation_cases v st with hd | hd | hd <;> rw [hd] <;>
    cases critere_seuil v t <;> decide

/-! ## Aggregation lemmas for the report -/

/-- Sum of the counter values of a report mapping. -/
def total_valeurs (m : List (String × ℕ)) : ℕ := (m.map (fun p => p.2)).sum

theorem addToGroups_sum {α : Type} (g : List (String × List α)) (k : String) (x : α) :
    ((addToGroups g k x).map (fun p => p.2.length)).sum =
      (g.map (fun p => p.2.length)).sum + 1 := by
  induction g with
  | nil => simp [addToGroups]
  | cons p rest ih =>
    obtain ⟨k2, v⟩ := p
    unfold addToGroups
    split_ifs with h
    · simp only [List.map_cons, List.sum_cons, List.length_append, List.length_cons,
        List.length_nil]
      omega
    · simp only [List.map_cons, List.sum_cons, ih]
      omega

theorem groupByKey_sum {α : Type} (key : α → String) (xs : List α) :
    ((groupByKey key xs).map (fun p => p.2.length)).sum = xs.length := by
  suffices h : ∀ g : List (String × List α),
      ((xs.foldl (fun g x => addToGroups g (key x) x) g).map (fun p => p.2.length)).sum =
        (g.map (fun p => p.2.length)).sum + xs.length by
    simpa [groupByKey] using h []
  induction xs with
  | nil => intro g; simp
  | cons x xs ih =>
    intro g
    simp only [List.foldl_cons, List.length_cons]
    rw [ih (addToGroups g (key x) x), addToGroups_sum]
    omega

theorem addToGroups_ne_nil {α : Type} (g : List (String × List α)) (k : String) (x : α)
    (h : ∀ p ∈ g, p.2 ≠ []) : ∀ p ∈ addToGroups g k x, p.2 ≠ [] := by
  induction g with
  | nil =>
    intro p hp
    simp only [addToGroups, List.mem_singleton] at hp
    rw [hp]
    simp
  | cons q rest ih =>
    obtain ⟨k2, v⟩ := q
    intro p hp
    unfold addToGroups at hp
    split_ifs at hp with hk
    · rcases List.mem_cons.mp hp with rfl | hp
      · simp
      · exact h p (List.mem_cons_of_mem _ hp)
    · rcases List.mem_cons.mp hp with rfl | hp
      · exact h _ (List.mem_cons_self _ _)
      · exact ih (fun q hq => h q (List.mem_cons_of_mem _ hq)) _ hp

theorem groupByKey_ne_nil {α : Type} (key : α → String) (xs : List α) :
    ∀ p ∈ groupByKey key xs, p.2 ≠ [] := by
  suffices h : ∀ g : List (String × List α), (∀ p ∈ g, p.2 ≠ []) →
      ∀ p ∈ xs.foldl (fun g x => addToGroups g (key x) x) g, p.2 ≠ [] by
    exact h [] (by simp)
  induction xs with
  | nil => intro g hg; simpa using hg
  | cons x xs ih =>
    intro g hg
    simp only [List.foldl_cons]
    exact ih (addToGroups g (key x) x) (addToGroups_ne_nil g (key x) x hg)

theorem addCount_sum (c : List (String × ℕ)) (k : String) :
    ((addCount c k).map (fun p => p.2)).sum = (c.map (fun p => p.2)).sum + 1 := by
  induction c with
  | nil => simp [addCount]
  | cons p rest ih =>
    obtain ⟨k2, n⟩ := p
    unfold addCount
    split_ifs with h
    · simp only [List.map_cons, List.sum_cons]
      omega
    · simp only [List.map_cons, List.sum_cons, ih]
      omega

theorem countByKey_sum {α : Type} (key : α → String) (xs : List α) :
    ((countByKey key xs).map (fun p => p.2)).sum = xs.length := by
  suffices h : ∀ c : List (String × ℕ),
      ((xs.foldl (fun c x => addCount c (key x)) c).map (fun p => p.2)).sum =
        (c.map (fun p => p.2)).sum + xs.length by
    simpa [countByKey] using h []
  induction xs with
  | nil => intro c; simp
  | cons x xs ih =>
    intro c
    simp only [List.foldl_cons, List.length_cons]
    rw [ih (addCount c (key x)), addCount_sum]
    omega

theorem addCount_pos (c : List (String × ℕ)) (k : String)
    (h : ∀ p ∈ c, 1 ≤ p.2) : ∀ p ∈ addCount c k, 1 ≤ p.2 := by
  induction c with
  | nil =>
    intro p hp
    simp only [addCount, List.mem_singleton] at hp
    rw [hp]
  | cons q rest ih =>
    obtain ⟨k2, n⟩ := q
    intro p hp
    unfold addCount at hp
    split_ifs at hp with hk
    · rcases List.mem_cons.mp hp with rfl | hp
      · simp
      · exact h p (List.mem_cons_of_mem _ hp)
    · rcases List.mem_cons.mp hp with rfl | hp
      · exact h _ (List.mem_cons_self _ _)
      · exact ih (fun q hq => h q (List.mem_cons_of_mem _ hq)) _ hp

theorem countByKey_pos {α : Type} (key : α → String) (xs : List α) :
    ∀ p ∈ countByKey key xs, 1 ≤ p.2 := by
  suffices h : ∀ c : List (String × ℕ), (∀ p ∈ c, 1 ≤ p.2) →
      ∀ p ∈ xs.foldl (fun c x => addCount c (key x)) c, 1 ≤ p.2 by
    exact h [] (by simp)
  induction xs with
  | nil => intro c hc; simpa using hc
  | cons x xs ih =>
    intro c hc
    simp only [List.foldl_cons]
    exact ih (addCount c (key x)) (addCount_pos c (key x) hc)

theorem rapport_vide_eq (ls : List LectureAnalysee)
    (h : (obtenir_anomalies ls).isEmpty = true) :
    rapport_anomalies ls =
      { nombre_total := ls.length, nombre_anomalies := 0, pourcentage_anomalies := 0,
        anomalies_par_type := [], anomalies_par_capteur := [], types_anomalies := [] } := by
  simp only [rapport_anomalies]
  rw [if_pos h]

theorem rapport_nonvide_eq (ls : List LectureAnalysee)
    (h : (obtenir_anomalies ls).isEmpty = false) :
    rapport_anomalies ls =
      { nombre_total := ls.length,
        nombre_anomalies := (obtenir_anomalies ls).length,
        pourcentage_anomalies := round2 (if ls.isEmpty = true then 0
          else ((obtenir_anomalies ls).length : ℚ) / (ls.length : ℚ) * 100),
        anomalies_par_type := (groupByKey (fun a => a.lecture.type_equipement)
          (obtenir_anomalies ls)).map (fun p => (p.1, p.2.length)),
        anomalies_par_capteur := (groupByKey (fun a => a.lecture.capteur_id)
          (obtenir_anomalies ls)).map (fun p => (p.1, p.2.length)),
        types_anomalies := countByKey (fun a => a.type_anomalie)
          (obtenir_anomalies ls) } := by
  simp only [rapport_anomalies]
  rw [if_neg (by rw [h]; exact Bool.false_ne_true)]

theorem rapport_coherent (ls : List LectureAnalysee) :
    total_valeurs (rapport_anomalies ls).anomalies_par_type =
      (rapport_anomalies ls).nombre_anomalies ∧
    total_valeurs (rapport_anomalies ls).anomalies_par_capteur =
      (rapport_anomalies ls).nombre_anomalies ∧
    total_valeurs (rapport_anomalies ls).types_anomalies =
      (rapport_anomalies ls).nombre_anomalies ∧
    (rapport_anomalies ls).anomalies_par_type.all (fun p => 1 ≤ p.2) = true ∧
    (rapport_anomalies ls).anomalies_par_capteur.all (fun p => 1 ≤ p.2) = true ∧
    (rapport_anomalies ls).types_anomalies.all (fun p => 1 ≤ p.2) = true ∧
    (rapport_anomalies ls).nombre_anomalies ≤ (rapport_anomalies ls).nombre_total := by
  cases hA : (obtenir_anomalies ls).isEmpty with
  | true =>
    rw [rapport_vide_eq ls hA]
    exact ⟨rfl, rfl, rfl, rfl, rfl, rfl, Nat.zero_le _⟩
  | false =>
    rw [rapport_nonvide_eq ls hA]
    dsimp only
    have hgrp : ∀ key : LectureAnalysee → String,
        total_valeurs ((groupByKey key (obtenir_anomalies ls)).map
          (fun p => (p.1, p.2.length))) = (obtenir_anomalies ls).length := by
      intro key
      unfold total_valeurs
      rw [List.map_map]
      exact groupByKey_sum key (obtenir_anomalies ls)
    have hall : ∀ key : LectureAnalysee → String,
        ((groupByKey key (obtenir_anomalies ls)).map
          (fun p => (p.1, p.2.length))).all (fun p => 1 ≤ p.2) = true := by
      intro key
      rw [List.all_eq_true]
      intro p hp
      rcases List.mem_map.mp hp with ⟨q, hq, rfl⟩
      have hne := groupByKey_ne_nil key (obtenir_anomalies ls) q hq
      have hpos : 0 < q.2.length := List.length_pos.mpr hne
      simpa using hpos
    refine ⟨hgrp _, hgrp _, countByKey_sum _ (obtenir_anomalies ls), hall _, hall _, ?_, ?_⟩
    · rw [List.all_eq_true]
      intro p hp
      simpa using countByKey_pos _ (obtenir_anomalies ls) p hp
    · exact List.length_filter_le _ ls

/-- C10: the report over any batch classified by the Detection Engine is
internally consistent: each of the three mappings' counts sums to the
anomaly count, every recorded count is at least 1, and the anomaly count
never exceeds the total count. -/
theorem rapport_detection_coherent :
    ∀ lectures : List Lecture,
      total_valeurs (rapport_anomalies (detecter_anomalies lectures)).anomalies_par_type =
        (rapport_anomalies (detecter_anomalies lectures)).nombre_anomalies ∧
      total_valeurs (rapport_anomalies (detecter_anomalies lectures)).anomalies_par_capteur =
        (rapport_anomalies (detecter_anomalies lectures)).nombre_anomalies ∧
      total_valeurs (rapport_anomalies (detecter_anomalies lectures)).types_anomalies =
        (rapport_anomalies (detecter_anomalies lectures)).nombre_anomalies ∧
      (rapport_anomalies (detecter_anomalies lectures)).anomalies_par_type.all
        (fun p => 1 ≤ p.2) = true ∧
      (rapport_anomalies (detecter_anomalies lectures)).anomalies_par_capteur.all
        (fun p => 1 ≤ p.2) = true ∧
      (rapport_anomalies (detecter_anomalies lectures)).types_anomalies.all
        (fun p => 1 ≤ p.2) = true ∧
      (rapport_anomalies (detecter_anomalies lectures)).nombre_anomalies ≤
        (rapport_anomalies (detecter_anomalies lectures)).nombre_total :=
  fun lectures => rapport_coherent (detecter_anomalies lectures)

/-- C6: the report's percentage is the 2-decimal rounding of
`anomaly_count / total_count * 100` (a multiple of 1/100 within half a
hundredth of the exact ratio), always lies in `[0, 100]`, and the report of
the empty batch is produced without error or division: zero counts, zero
percentage and empty mappings. -/
theorem pourcentage_rapport :
    ∀ lectures : List LectureAnalysee,
      (∃ k : ℤ, (rapport_anomalies lectures).pourcentage_anomalies = (k : ℚ) / 100 ∧
        |(rapport_anomalies lectures).pourcentage_anomalies -
          ((obtenir_anomalies lectures).length : ℚ) / (lectures.length : ℚ) * 100| ≤
          1/200) ∧
      0 ≤ (rapport_anomalies lectures).pourcentage_anomalies ∧
      (rapport_anomalies lectures).pourcentage_anomalies ≤ 100 ∧
      rapport_anomalies [] =
        { nombre_total := 0, nombre_anomalies := 0, pourcentage_anomalies := 0,
          anomalies_par_type := [], anomalies_par_capteur := [],
          types_anomalies := [] } := by
  have hvide : rapport_anomalies [] =
      { nombre_total := 0, nombre_anomalies := 0, pourcentage_anomalies := 0,
        anomalies_par_type := [], anomalies_par_capteur := [],
        types_anomalies := [] } :=
    rapport_vide_eq [] rfl
  intro lectures
  cases hA : (obtenir_anomalies lectures).isEmpty with
  | true =>
    rw [rapport_vide_eq lectures hA]
    dsimp only
    have hnil : obtenir_anomalies lectures = [] := List.isEmpty_iff.mp hA
    refine ⟨⟨0, by norm_num, ?_⟩, le_refl 0, by norm_num, hvide⟩
    rw [hnil]
    norm_num
  | false =>
    have hne : ¬ lectures.isEmpty = true := by
      intro hl
      rw [List.isEmpty_iff] at hl
      rw [hl] at hA
      simp [obtenir_anomalies] at hA
    rw [rapport_nonvide_eq lectures hA]
    dsimp only
    rw [if_neg hne]
    have hp0 : 0 ≤ ((obtenir_anomalies lectures).length : ℚ) /
        (lectures.length : ℚ) * 100 := by positivity
    have hp100 : ((obtenir_anomalies lectures).length : ℚ) /
        (lectures.length : ℚ) * 100 ≤ 100 := by
      have hlpos : 0 < lectures.length := by
        rcases lectures with _ | ⟨a, l⟩
        · exact absurd rfl hne
        · simp
      have hle : (obtenir_anomalies lectures).length ≤ lectures.length :=
        List.length_filter_le _ lectures
      have hleq : ((obtenir_anomalies lectures).length : ℚ) ≤ (lectures.length : ℚ) :=
        by exact_mod_cast hle
      rw [div_mul_eq_mul_div, div_le_iff₀ (by exact_mod_cast hlpos)]
      linarith
    exact ⟨⟨rhe (100 * (((obtenir_anomalies lectures).length : ℚ) /
             (lectures.length : ℚ) * 100)), rfl, round2_dist _⟩,
           round2_nonneg _ hp0, round2_le_100 _ hp100, hvide⟩

/-- Specification-side arithmetic mean of a value list. -/
def moyenne_exacte (vals : List ℚ) : ℚ := vals.sum / (vals.length : ℚ)

/-- Specification-side sample variance of a value list: sum of squared
deviations from the exact mean, divided by `n - 1` (Bessel's correction). -/
def variance_exacte (vals : List ℚ) : ℚ :=
  (vals.map (fun v => (v - moyenne_exacte vals) * (v - moyenne_exacte vals))).sum /
    ((vals.length : ℚ) - 1)

/-- C5: for a single value the Statistics Calculator returns that value as
mean, min and max, and stdev 0; for two or more values the mean is the
2-decimal rounding of the arithmetic mean, the stdev is the 2-decimal
rounding of the real square root of the sample variance (both multiples of
1/100 within half a hundredth of the exact statistic), while min and max
are the exact, unrounded minimum and maximum of the values. -/
theorem calculer_stats_spec :
    (∀ x : Lecture, calculer_stats [x] =
      { moyenne := x.valeur, ecart_type := 0, min := x.valeur, max := x.valeur }) ∧
    ∀ (a b : Lecture) (rest : List Lecture),
      (∃ k : ℤ, (calculer_stats (a :: b :: rest)).moyenne = (k : ℚ) / 100 ∧
        |(calculer_stats (a :: b :: rest)).moyenne -
          moyenne_exacte ((a :: b :: rest).map (fun l => l.valeur))| ≤ 1/200) ∧
      (∃ k : ℤ, (calculer_stats (a :: b :: rest)).ecart_type = (k : ℚ) / 100 ∧
        |((calculer_stats (a :: b :: rest)).ecart_type : ℝ) -
          Real.sqrt ((variance_exacte ((a :: b :: rest).map (fun l => l.valeur)) : ℚ) : ℝ)| ≤
          1/200) ∧
      (calculer_stats (a :: b :: rest)).min ∈ (a :: b :: rest).map (fun l => l.valeur) ∧
      ((a :: b :: rest).map (fun l => l.valeur)).all
        (fun x => (calculer_stats (a :: b :: rest)).min ≤ x) = true ∧
      (calculer_stats (a :: b :: rest)).max ∈ (a :: b :: rest).map (fun l => l.valeur) ∧
      ((a :: b :: rest).map (fun l => l.valeur)).all
        (fun x => x ≤ (calculer_stats (a :: b :: rest)).max) = true := by
  refine ⟨fun x => rfl, ?_⟩
  intro a b rest
  set vals := (a :: b :: rest).map (fun l => l.valeur) with hv
  have hlen2 : ¬ (vals.length < 2) := by rw [hv]; simp
  have hcs : calculer_stats (a :: b :: rest) =
      { moyenne := round2 (moyenne_exacte vals),
        ecart_type := round2sqrt (variance_exacte vals),
        min := minD vals, max := maxD vals } := by
    simp only [calculer_stats]
    rw [← hv, if_neg hlen2]
    rfl
  rw [hcs]
  dsimp only
  have hvar0 : 0 ≤ variance_exacte vals := by
    unfold variance_exacte
    apply div_nonneg
    · apply List.sum_nonneg
      intro x hx
      rcases List.mem_map.mp hx with ⟨v, hv2, rfl⟩
      exact mul_self_nonneg _
    · have hl : vals.length = rest.length + 2 := by rw [hv]; simp
      rw [hl]
      push_cast
      linarith
  have hvne : vals ≠ [] := by rw [hv]; simp
  refine ⟨⟨rhe (100 * moyenne_exacte vals), rfl, round2_dist _⟩,
          ⟨sqrtRHE (10000 * variance_exacte vals), rfl, round2sqrt_dist _ hvar0⟩,
          minD_mem vals hvne, ?_, maxD_mem vals hvne, ?_⟩
  · rw [List.all_eq_true]
    intro x hx
    simpa using minD_le vals x hx
  · rw [List.all_eq_true]
    intro x hx
    simpa using maxD_le vals x hx

end Energy
